import Mathlib

/-
Formal model of the library repository and hot-reload subsystem of
AHRQ-CDS-Connect-CQL-SERVICES (src/lib/libraries-loader.js), together with
proofs about its behaviour.

The JavaScript module keeps an in-memory two-level store of parsed JSON rule
documents (id -> version -> document), loads it from a directory tree, answers
version-resolution queries via the external `semver` package's precedence
rules, and lazily rebuilds the store when the tree's modification time moves
past the last load time.

Modelling conventions:
- JSON values are the inductive `Json` below (numbers as `Int`: no claim
  touches fractional numeric content).  `JSON.stringify`-based comparison of
  two parsed documents is modelled by structural equality, which coincides
  with stringify equality because stringify is injective on parsed values
  (field insertion order is part of the value).
- JavaScript `Map` objects are association lists in insertion order:
  `set` overwrites in place, preserving the position of an existing key,
  otherwise appends - exactly the JS Map iteration contract.
- A missing field / `undefined` is `Option.none`; JS nullish (`== null`)
  covers `none` and literal `Json.null`.
- Thrown exceptions are `Except.error`; the infinite mutual recursion of
  `resolve`/`resolveLatest` on a nullish stored version key (a real behaviour
  of the JS, ending in a stack-overflow RangeError) is modelled as an error.
- Filesystem trees are the inductive `FSNode` carrying modification times and,
  for files, the result of `JSON.parse` on their content (parse is an external
  library; its outcome is data of the model).
- Console logging is modelled by returning lists of log strings.
- The `semver` package (an external dependency) is modelled from the semantic
  versioning specification it implements: strict parsing of
  `[v]major.minor.patch[-prerelease][+build]` and the standard precedence
  comparison (numeric core ordering, release above its own pre-releases,
  pre-release identifier lists compared pointwise with numeric identifiers
  below alphanumeric ones and shorter lists below their extensions).
-/

set_option maxRecDepth 4000

/-- A parsed JSON value.  Object fields keep insertion order. -/
inductive Json where
  | null
  | bool (b : Bool)
  | num (n : Int)
  | str (s : String)
  | arr (elems : List Json)
  | obj (fields : List (String × Json))

mutual

/-- Decidable equality for `Json` (written by hand because the nested
inductive defeats the automatic deriving in this Lean version). -/
def Json.decEq : (a b : Json) → Decidable (a = b)
  | .null, .null => isTrue rfl
  | .bool a, .bool b =>
    if h : a = b then isTrue (h ▸ rfl)
    else isFalse fun hh => h (Json.bool.inj hh)
  | .num a, .num b =>
    if h : a = b then isTrue (h ▸ rfl)
    else isFalse fun hh => h (Json.num.inj hh)
  | .str a, .str b =>
    if h : a = b then isTrue (h ▸ rfl)
    else isFalse fun hh => h (Json.str.inj hh)
  | .arr a, .arr b =>
    match Json.decEqL a b with
    | isTrue h => isTrue (h ▸ rfl)
    | isFalse h => isFalse fun hh => h (Json.arr.inj hh)
  | .obj a, .obj b =>
    match Json.decEqF a b with
    | isTrue h => isTrue (h ▸ rfl)
    | isFalse h => isFalse fun hh => h (Json.obj.inj hh)
  | .null, .bool _ => isFalse fun h => Json.noConfusion h
  | .null, .num _ => isFalse fun h => Json.noConfusion h
  | .null, .str _ => isFalse fun h => Json.noConfusion h
  | .null, .arr _ => isFalse fun h => Json.noConfusion h
  | .null, .obj _ => isFalse fun h => Json.noConfusion h
  | .bool _, .null => isFalse fun h => Json.noConfusion h
  | .bool _, .num _ => isFalse fun h => Json.noConfusion h
  | .bool _, .str _ => isFalse fun h => Json.noConfusion h
  | .bool _, .arr _ => isFalse fun h => Json.noConfusion h
  | .bool _, .obj _ => isFalse fun h => Json.noConfusion h
  | .num _, .null => isFalse fun h => Json.noConfusion h
  | .num _, .bool _ => isFalse fun h => Json.noConfusion h
  | .num _, .str _ => isFalse fun h => Json.noConfusion h
  | .num _, .arr _ => isFalse fun h => Json.noConfusion h
  | .num _, .obj _ => isFalse fun h => Json.noConfusion h
  | .str _, .null => isFalse fun h => Json.noConfusion h
  | .str _, .bool _ => isFalse fun h => Json.noConfusion h
  | .str _, .num _ => isFalse fun h => Json.noConfusion h
  | .str _, .arr _ => isFalse fun h => Json.noConfusion h
  | .str _, .obj _ => isFalse fun h => Json.noConfusion h
  | .arr _, .null => isFalse fun h => Json.noConfusion h
  | .arr _, .bool _ => isFalse fun h => Json.noConfusion h
  | .arr _, .num _ => isFalse fun h => Json.noConfusion h
  | .arr _, .str _ => isFalse fun h => Json.noConfusion h
  | .arr _, .obj _ => isFalse fun h => Json.noConfusion h
  | .obj _, .null => isFalse fun h => Json.noConfusion h
  | .obj _, .bool _ => isFalse fun h => Json.noConfusion h
  | .obj _, .num _ => isFalse fun h => Json.noConfusion h
  | .obj _, .str _ => isFalse fun h => Json.noConfusion h
  | .obj _, .arr _ => isFalse fun h => Json.noConfusion h

/-- Decidable equality for lists of `Json`. -/
def Json.decEqL : (a b : List Json) → Decidable (a = b)
  | [], [] => isTrue rfl
  | [], _ :: _ => isFalse fun h => List.noConfusion h
  | _ :: _, [] => isFalse fun h => List.noConfusion h
  | x :: xs, y :: ys =>
    match Json.decEq x y with
    | isTrue h1 =>
      match Json.decEqL xs ys with
      | isTrue h2 => isTrue (h1 ▸ h2 ▸ rfl)
      | isFalse h2 => isFalse fun hh => h2 (List.cons.inj hh).2
    | isFalse h1 => isFalse fun hh => h1 (List.cons.inj hh).1

/-- Decidable equality for JSON object field lists. -/
def Json.decEqF : (a b : List (String × Json)) → Decidable (a = b)
  | [], [] => isTrue rfl
  | [], _ :: _ => isFalse fun h => List.noConfusion h
  | _ :: _, [] => isFalse fun h => List.noConfusion h
  | (k, x) :: xs, (l, y) :: ys =>
    if hk : k = l then
      match Json.decEq x y with
      | isTrue h1 =>
        match Json.decEqF xs ys with
        | isTrue h2 => isTrue (hk ▸ h1 ▸ h2 ▸ rfl)
        | isFalse h2 => isFalse fun hh => h2 (List.cons.inj hh).2
      | isFalse h1 => isFalse fun hh => h1 (congrArg Prod.snd (List.cons.inj hh).1)
    else isFalse fun hh => hk (congrArg Prod.fst (List.cons.inj hh).1)

end

instance : DecidableEq Json := Json.decEq

/-- JS member access `j.key`: `none` models `undefined` (access on a missing
object, or on a non-object value, yields no field). -/
def jget (j : Option Json) (key : String) : Option Json :=
  match j with
  | some (.obj fields) =>
    match fields.find? (fun f => f.1 = key) with
    | some f => some f.2
    | none => none
  | _ => none

/-- JS truthiness of a value. -/
def Json.truthy : Json → Bool
  | .null => false
  | .bool b => b
  | .num n => n != 0
  | .str s => !s.isEmpty
  | .arr _ => true
  | .obj _ => true

/-- JS truthiness where `none` is `undefined` (falsy). -/
def jtruthy : Option Json → Bool
  | none => false
  | some j => j.truthy

/-- JS `x == null`: true exactly for `undefined` and `null`. -/
def jsNullish : Option Json → Bool
  | none => true
  | some .null => true
  | some _ => false

namespace MapL

/-- JS `Map.prototype.get` (SameValueZero key equality) over an
insertion-ordered association list. -/
def get {κ ν : Type} [DecidableEq κ] : List (κ × ν) → κ → Option ν
  | [], _ => none
  | (k, v) :: rest, key => if k = key then some v else get rest key

/-- JS `Map.prototype.set`: overwrite in place (keeping the position of an
existing key) or append a new entry. -/
def set {κ ν : Type} [DecidableEq κ] : List (κ × ν) → κ → ν → List (κ × ν)
  | [], key, val => [(key, val)]
  | (k, v) :: rest, key, val =>
    if k = key then (key, val) :: rest else (k, v) :: set rest key val

/-- JS `Map.prototype.has`. -/
def hasKey {κ ν : Type} [DecidableEq κ] (l : List (κ × ν)) (key : κ) : Bool :=
  (get l key).isSome

end MapL

/-- A stored version key: `json.library.identifier.version`, which the source
uses as a raw Map key; it may be any JSON value or `undefined` (`none`). -/
abbrev VKey := Option Json

/-- The inner `version -> document` map of one library id. -/
abbrev VMap := List (VKey × Json)

/-- The two-level store `this._store : id -> version -> document`
(`libraries-loader.js` line 16). -/
abbrev Store := List (Json × VMap)

/-- `json.library.identifier.id` as read by `addLibrary` (line 21). -/
def libraryId (json : Json) : Option Json :=
  jget (jget (jget (some json) "library") "identifier") "id"

/-- `json.library.identifier.version` as read by `addLibrary` (line 22). -/
def libraryVersion (json : Json) : VKey :=
  jget (jget (jget (some json) "library") "identifier") "version"

/-- The guard of `addLibrary` (line 20):
`json && json.library && json.library.identifier && json.library.identifier.id`. -/
def addGuard (json : Json) : Bool :=
  jtruthy (some json) && jtruthy (jget (some json) "library") &&
    jtruthy (jget (jget (some json) "library") "identifier") &&
    jtruthy (libraryId json)

/-- The console warning of `addLibrary` line 29. -/
def dupWarning : String :=
  "WARNING: Multiple copies found with differences in content.  Only one will be loaded."

/-- `Libraries.prototype.addLibrary` (lines 19-34).  Returns the new store and
the emitted warnings.  The content comparison `JSON.stringify(loadedJSON) !==
JSON.stringify(json)` (line 28) is structural inequality of the parsed values
(stringify is injective on them).  Note line 32 runs unconditionally: the
incoming document always overwrites the stored one. -/
def Libraries.addLibrary (store : Store) (json : Json) : Store × List String :=
  if addGuard json then
    match libraryId json with
    | none => (store, [])
    | some libId =>
      let libVersion := libraryVersion json
      let vmap : VMap := (MapL.get store libId).getD []
      let warn : List String :=
        match MapL.get store libId with
        | none => []
        | some m =>
          match MapL.get m libVersion with
          | none => []
          | some loadedJSON => if loadedJSON ≠ json then [dupWarning] else []
      (MapL.set store libId (MapL.set vmap libVersion json), warn)
  else (store, [])

/-- `Libraries.prototype.all` (lines 36-40): every stored document, one entry
per (id, version) pair, in store iteration order.  (The `cql.Library` wrapper
constructed around each document belongs to the external execution engine; the
model returns the raw source documents.) -/
def Libraries.all (store : Store) : List Json :=
  (store.map (fun p => p.2.map Prod.snd)).flatten

/-- One semantic-version pre-release identifier: numeric, or alphanumeric
(kept as its character list; JS compares identifier strings by code unit,
which for the ASCII identifier alphabet is exactly `List Char` order). -/
inductive PreId where
  | num (n : Nat)
  | alpha (s : List Char)
deriving DecidableEq

/-- A parsed semantic version (build metadata is dropped: it never affects
precedence). -/
structure SemV where
  major : Nat
  minor : Nat
  patch : Nat
  pre : List PreId
deriving DecidableEq

/-- Comparison of two naturals, written as the `a < b ? -1 : a > b ? 1 : 0`
pattern the semver library uses. -/
def numCmp (a b : Nat) : Ordering :=
  if a < b then .lt else if b < a then .gt else .eq

/-- JS code-unit comparison of two identifier characters. -/
def charCmp (a b : Char) : Ordering := numCmp a.toNat b.toNat

/-- Lexicographic comparison of lists: pointwise, with a strict prefix sorting
below its extensions (the semver identifier-list loop). -/
def listLexCmp {α : Type} (cmp : α → α → Ordering) : List α → List α → Ordering
  | [], [] => .eq
  | [], _ :: _ => .lt
  | _ :: _, [] => .gt
  | a :: as, b :: bs => (cmp a b).then (listLexCmp cmp as bs)

/-- semver `compareIdentifiers`: numeric identifiers compare numerically and
sort below alphanumeric ones; alphanumeric identifiers compare as JS strings. -/
def PreId.cmp : PreId → PreId → Ordering
  | .num m, .num n => numCmp m n
  | .num _, .alpha _ => .lt
  | .alpha _, .num _ => .gt
  | .alpha s, .alpha t => listLexCmp charCmp s t

/-- semver `comparePre`: a version without pre-release identifiers sorts above
any pre-release of the same core; two pre-release lists compare pointwise. -/
def preCmp : List PreId → List PreId → Ordering
  | [], [] => .eq
  | [], _ :: _ => .gt
  | _ :: _, [] => .lt
  | a :: as, b :: bs => listLexCmp PreId.cmp (a :: as) (b :: bs)

/-- semver precedence: core triple lexicographically, then pre-release. -/
def SemV.cmp (x y : SemV) : Ordering :=
  (numCmp x.major y.major).then
    ((numCmp x.minor y.minor).then
      ((numCmp x.patch y.patch).then (preCmp x.pre y.pre)))

/-- Split a character list at every occurrence of `sep`
(like JS `String.prototype.split` with a single-character separator). -/
def splitOnC (sep : Char) : List Char → List (List Char)
  | [] => [[]]
  | c :: rest =>
    let r := splitOnC sep rest
    if c = sep then [] :: r
    else
      match r with
      | [] => [[c]]
      | h :: t => (c :: h) :: t

/-- Decimal value of a digit list (only used on all-digit lists). -/
def digitsToNat : List Char → Nat → Nat
  | [], acc => acc
  | c :: rest, acc => digitsToNat rest (acc * 10 + (c.toNat - 48))

/-- A strict semver numeric identifier: nonempty, digits only, no leading
zero (unless it is exactly "0"). -/
def parseNumId (l : List Char) : Option Nat :=
  match l with
  | [] => none
  | c :: rest =>
    if (c :: rest).all Char.isDigit then
      if c = '0' ∧ rest ≠ [] then none else some (digitsToNat (c :: rest) 0)
    else none

/-- Characters allowed in semver pre-release / build identifiers. -/
def isIdentChar (c : Char) : Bool := c.isDigit || c.isAlpha || c = '-'

/-- One pre-release identifier: numeric (without leading zeros) or
alphanumeric over `[0-9A-Za-z-]`. -/
def parsePreId (l : List Char) : Option PreId :=
  match l with
  | [] => none
  | l =>
    if l.all Char.isDigit then (parseNumId l).map PreId.num
    else if l.all isIdentChar then some (.alpha l) else none

/-- One build-metadata identifier: nonempty over `[0-9A-Za-z-]`. -/
def validBuildId (l : List Char) : Bool := !l.isEmpty && l.all isIdentChar

/-- The `major.minor.patch` core: exactly three numeric identifiers. -/
def parseCore (l : List Char) : Option (Nat × Nat × Nat) :=
  match splitOnC '.' l with
  | [a, b, c] =>
    match parseNumId a, parseNumId b, parseNumId c with
    | some x, some y, some z => some (x, y, z)
    | _, _, _ => none
  | _ => none

/-- A dot-separated pre-release identifier list. -/
def parsePreList (l : List Char) : Option (List PreId) :=
  (splitOnC '.' l).mapM parsePreId

/-- Rejoin the tail produced by splitting on `-`: everything after the first
hyphen is the pre-release part (identifiers may themselves contain hyphens). -/
def rejoinHyphen : List (List Char) → List Char
  | [] => []
  | [h] => h
  | h :: t => h ++ '-' :: rejoinHyphen t

/-- The part of a version before build metadata:
`major.minor.patch` optionally followed by `-prerelease`. -/
def parseMain (l : List Char) : Option SemV :=
  match splitOnC '-' l with
  | [core] => (parseCore core).map (fun t => ⟨t.1, t.2.1, t.2.2, []⟩)
  | core :: rest =>
    match parseCore core, parsePreList (rejoinHyphen rest) with
    | some t, some pre => some ⟨t.1, t.2.1, t.2.2, pre⟩
    | _, _ => none
  | [] => none

/-- Modelled from the semantic-versioning grammar implemented by the external
`semver` package (strict mode): trimmed, at most 256 characters, optional
leading `v`, core triple, optional pre-release, optional build metadata. -/
def parseSemVer (s : String) : Option SemV :=
  let l0 := (s.data.dropWhile Char.isWhitespace).reverse.dropWhile Char.isWhitespace |>.reverse
  if 256 < l0.length then none
  else
    let l1 := match l0 with
      | 'v' :: rest => rest
      | l => l
    match splitOnC '+' l1 with
    | [mainPart] => parseMain mainPart
    | [mainPart, build] =>
      if (splitOnC '.' build).all validBuildId then parseMain mainPart else none
    | _ => none

/-- `semver.gt(a, b)` (line 57): parses `a` first, then `b`, throwing
`Invalid Version` on the first argument that fails to parse; on success
compares by semver precedence. -/
def semverGtE (a b : String) : Except String Bool :=
  match parseSemVer a with
  | none => .error ("Invalid Version: " ++ a)
  | some x =>
    match parseSemVer b with
    | none => .error ("Invalid Version: " ++ b)
    | some y => .ok (SemV.cmp x y = .gt)

/-- The version string carried by a stored version key, if the key is a
string at all (any other key makes `semver` throw). -/
def versionString : VKey → Option String
  | some (.str s) => some s
  | _ => none

/-- `semver.gt` applied to two raw stored version keys: non-string keys and
malformed version strings throw, in argument order. -/
def semverGtK (a b : VKey) : Except String Bool :=
  match versionString a with
  | none => .error "TypeError: Invalid version. Must be a string."
  | some sa =>
    match versionString b with
    | none => .error "TypeError: Invalid version. Must be a string."
    | some sb => semverGtE sa sb

/-- The `for (const version of versions)` loop of `resolveLatest`
(lines 54-60): threads the running `latestVersion` (initially JS `undefined`,
here `Option.none`) through the keys in iteration order; `semver.gt` is only
consulted once a candidate exists (`latestVersion == null ||` short-circuits),
and any exception it throws aborts the loop. -/
def findLatest : Option VKey → List VKey → Except String (Option VKey)
  | acc, [] => .ok acc
  | none, v :: vs => findLatest (some v) vs
  | some l, v :: vs =>
    match semverGtK v l with
    | .error e => .error e
    | .ok true => findLatest (some v) vs
    | .ok false => findLatest (some l) vs

/-- Log message of `resolve` line 49. -/
def resolveFailMsg : String := "Failed to resolve library"

/-- Log message of `resolveLatest` line 63. -/
def resolveLatestFailMsg : String := "Failed to resolve latest version of library"

/-- Node's stack-overflow error: what the mutual recursion of
`resolve`/`resolveLatest` produces when `resolveLatest` hands a nullish
version key back to `resolve`. -/
def stackOverflowMsg : String := "RangeError: Maximum call stack size exceeded"

/-- The non-nullish branch of `Libraries.prototype.resolve` (lines 46-49):
exact (id, version) lookup; a miss is logged and yields an absent result
(JS `undefined`, here `Option.none` inside `Except.ok`). -/
def Libraries.resolveExact (store : Store) (id : Json) (version : VKey) :
    Except String (Option Json) × List String :=
  match MapL.get store id with
  | some m =>
    match MapL.get m version with
    | some json => (.ok (some json), [])
    | none => (.ok none, [resolveFailMsg])
  | none => (.ok none, [resolveFailMsg])

/-- `Libraries.prototype.resolveLatest` (lines 52-64).  With at least one
stored version it runs the `semver.gt` loop over the version keys and then
resolves the winning key exactly; when the winning key is nullish the JS
`resolve` call recurses back into `resolveLatest` forever, which Node turns
into a thrown RangeError.  An unknown id or an empty version map is logged
and yields an absent result. -/
def Libraries.resolveLatest (store : Store) (id : Json) :
    Except String (Option Json) × List String :=
  match MapL.get store id with
  | some vmap =>
    if 0 < vmap.length then
      match findLatest none (vmap.map Prod.fst) with
      | .error e => (.error e, [])
      | .ok none => (.error stackOverflowMsg, [])
      | .ok (some latest) =>
        if jsNullish latest then (.error stackOverflowMsg, [])
        else Libraries.resolveExact store id latest
    else (.ok none, [resolveLatestFailMsg])
  | none => (.ok none, [resolveLatestFailMsg])

/-- `Libraries.prototype.resolve` (lines 42-50): a nullish `version`
(omitted, `undefined` or `null`) delegates to `resolveLatest`; otherwise the
exact lookup runs. -/
def Libraries.resolve (store : Store) (id : Json) (version : VKey) :
    Except String (Option Json) × List String :=
  if jsNullish version then Libraries.resolveLatest store id
  else Libraries.resolveExact store id version

/-- Decidable equality for `Except` results (absent from the core library). -/
instance {ε α : Type} [DecidableEq ε] [DecidableEq α] : DecidableEq (Except ε α) :=
  fun a b =>
    match a, b with
    | .ok x, .ok y =>
      if h : x = y then isTrue (h ▸ rfl) else isFalse fun hh => h (Except.ok.inj hh)
    | .error x, .error y =>
      if h : x = y then isTrue (h ▸ rfl) else isFalse fun hh => h (Except.error.inj hh)
    | .ok _, .error _ => isFalse fun h => Except.noConfusion h
    | .error _, .ok _ => isFalse fun h => Except.noConfusion h

/-- A filesystem tree node: modification time in milliseconds plus, for files,
the outcome of `JSON.parse` on the file's content. -/
inductive FSNode where
  | file (mtime : Int) (parsed : Except String Json)
  | dir (mtime : Int) (entries : List (String × FSNode))

/-- Does a file name end in the recognized `.json` extension
(`file.endsWith('.json')`, line 84)? -/
def hasJsonExt (name : String) : Bool :=
  List.isSuffixOf ".json".data name.data

mutual

/-- The body of the `load` walk (lines 81-92) for one directory entry:
a file is parsed only when its name carries the `.json` extension, a
directory is recursed into; the parse results are listed in visit order. -/
def FSNode.entryDocs : String → FSNode → List (Except String Json)
  | name, .file _ parsed => if hasJsonExt name then [parsed] else []
  | _, .dir _ entries => FSNode.listDocs entries

/-- The walk over a directory's entry list, in `readdirSync` order. -/
def FSNode.listDocs : List (String × FSNode) → List (Except String Json)
  | [] => []
  | (name, node) :: rest => FSNode.entryDocs name node ++ FSNode.listDocs rest

end

mutual

/-- `getLatestModTime` (lines 107-124): the directory's own mtime folded with
every subdirectory (recursively) and every `.json` file.  Called on a
non-directory the JS `readdirSync` throws and the catch returns 0. -/
def getLatestModTime : FSNode → Int
  | .file _ _ => 0
  | .dir t entries => modTimeList t entries

/-- The fold of `getLatestModTime` over a directory's entries. -/
def modTimeList : Int → List (String × FSNode) → Int
  | acc, [] => acc
  | acc, (name, node) :: rest =>
    match node with
    | .dir _ _ => modTimeList (max acc (getLatestModTime node)) rest
    | .file ft _ => modTimeList (if hasJsonExt name then max acc ft else acc) rest

end

/-- The module-level mutable state of `libraries-loader.js`: the published
repository (`repo`, line 67) and the hot-reload tracking variables
(`librariesPath`, `lastLoadTime`, `lastCheckTime`, lines 9-11). -/
structure LoaderState where
  repo : Store
  librariesPath : Option String
  lastLoadTime : Int
  lastCheckTime : Int
deriving DecidableEq

/-- `CHECK_INTERVAL_MS` (line 12). -/
def CHECK_INTERVAL_MS : Int := 1000

/-- Result of a `load` call: the module state afterwards, the log lines, and
whether a `JSON.parse` exception escaped to the caller. -/
structure LoadResult where
  state : LoaderState
  logs : List String
  exc : Except String Unit
deriving DecidableEq

/-- Log message of `load` line 71. -/
def loadFailMsg (p : String) : String :=
  "Failed to load local repository at: " ++ p ++ ".  Not a valid folder path."

/-- Feeding the walked parse results to `repo.addLibrary` one by one
(lines 89-90): the first parse failure aborts the walk at that point, leaving
the documents added so far in the store and propagating the exception. -/
def applyDocs : Store → List (Except String Json) → Store × List String × Except String Unit
  | repo, [] => (repo, [], .ok ())
  | repo, .error e :: _ => (repo, [], .error e)
  | repo, .ok j :: rest =>
    let r1 := Libraries.addLibrary repo j
    let r2 := applyDocs r1.1 rest
    (r2.1, r1.2 ++ r2.2.1, r2.2.2)

/-- The successive values of the published store observable while `applyDocs`
runs: the store before any document, after each added document, stopping at a
parse failure.  (Each `addLibrary` is one mutation of the already published
store object.) -/
def applyDocsTrace : Store → List (Except String Json) → List Store
  | repo, [] => [repo]
  | repo, .error _ :: _ => [repo]
  | repo, .ok j :: rest => repo :: applyDocsTrace (Libraries.addLibrary repo j).1 rest

/-- `load(pathToFolder)` at top level (lines 69-93).  `root` is the node the
path denotes (`none` when the path does not exist; a `file` node when it is
not a directory): those cases log and return with nothing loaded.  On a
directory it records the path and the load time, then walks the tree feeding
every `.json` parse into the store. -/
def load (root : Option FSNode) (pathStr : String) (now : Int) (st : LoaderState) : LoadResult :=
  match root with
  | some (.dir _ entries) =>
    let st1 : LoaderState := { st with librariesPath := some pathStr, lastLoadTime := now }
    let r := applyDocs st1.repo (FSNode.listDocs entries)
    ⟨{ st1 with repo := r.1 }, r.2.1, r.2.2⟩
  | _ => ⟨st, [loadFailMsg pathStr], .ok ()⟩

/-- Result of a `checkAndReloadIfNeeded` call, with a `scanned` flag recording
whether the call reached the filesystem scan (`getLatestModTime`, line 140). -/
structure CheckResult where
  state : LoaderState
  logs : List String
  exc : Except String Unit
  scanned : Bool
deriving DecidableEq

/-- Log message of line 142. -/
def reloadingMsg : String := "Libraries changed, reloading..."

/-- `checkAndReloadIfNeeded()` (lines 130-149).  `now` is `Date.now()`;
`root` is the node currently at `librariesPath` (`none` when the path has
disappeared, making the stat inside `getLatestModTime` throw and the catch
return 0).  Without a registered path, or within `CHECK_INTERVAL_MS` of the
last check, the call returns untouched state.  Otherwise it records the check
time, scans, and on staleness runs `reset()` (the pointer swap to a fresh
empty store, line 100) followed by `load` — whose parse exceptions propagate
to the caller, skipping the post-reload logging. -/
def checkAndReloadIfNeeded (st : LoaderState) (now : Int) (root : Option FSNode) : CheckResult :=
  match st.librariesPath with
  | none => ⟨st, [], .ok (), false⟩
  | some p =>
    if now - st.lastCheckTime < CHECK_INTERVAL_MS then ⟨st, [], .ok (), false⟩
    else
      let st1 : LoaderState := { st with lastCheckTime := now }
      let latestModTime : Int :=
        match root with
        | none => 0
        | some r => getLatestModTime r
      if st1.lastLoadTime < latestModTime then
        let st2 : LoaderState := { st1 with repo := [] }
        let r := load root p now st2
        match r.exc with
        | .error e => ⟨r.state, reloadingMsg :: r.logs, .error e, true⟩
        | .ok _ =>
          let count := (Libraries.all r.state.repo).length
          ⟨r.state, reloadingMsg :: r.logs ++ [s!"Reloaded {count} libraries"], .ok (), true⟩
      else ⟨st1, [], .ok (), true⟩

/-- The parse results a reload would feed into the store. -/
def rootDocs (root : Option FSNode) : List (Except String Json) :=
  match root with
  | some (.dir _ entries) => FSNode.listDocs entries
  | _ => []

/-- The successive values of the published store observable through `get()`
over the course of one `checkAndReloadIfNeeded` call: the store before the
call and, when a reload runs, the fresh empty store installed by `reset()`
followed by every intermediate population state of `load`. -/
def checkAndReloadTrace (st : LoaderState) (now : Int) (root : Option FSNode) : List Store :=
  match st.librariesPath with
  | none => [st.repo]
  | some _ =>
    if now - st.lastCheckTime < CHECK_INTERVAL_MS then [st.repo]
    else
      let latestModTime : Int :=
        match root with
        | none => 0
        | some r => getLatestModTime r
      if st.lastLoadTime < latestModTime then
        match root with
        | some (.dir _ entries) => st.repo :: applyDocsTrace [] (FSNode.listDocs entries)
        | _ => [st.repo, []]
      else [st.repo]

/-- The laws making a three-way comparator a (total pre)order comparator:
reflexivity, substitutivity of `eq`, antisymmetric swap, and transitivity of
`lt`.  `SemV.cmp` satisfies them, which is what makes the `semver.gt` loop of
`resolveLatest` actually compute a maximal element. -/
structure LawfulCmp {α : Type} (C : α → α → Ordering) : Prop where
  refl : ∀ a, C a a = .eq
  eq_substL : ∀ {a b : α} (c : α), C a b = .eq → C a c = C b c
  eq_substR : ∀ {a b : α} (c : α), C a b = .eq → C c a = C c b
  swapEq : ∀ a b, (C a b).swap = C b a
  lt_trans : ∀ {a b c : α}, C a b = .lt → C b c = .lt → C a c = .lt

/-- The parsed semantic version of a stored version key, when the key is a
well-formed semver string. -/
def keySemV (k : VKey) : Option SemV :=
  match versionString k with
  | none => none
  | some s => parseSemVer s

/-- Concrete document: id "X", version "1.0.0", body 1. -/
def doc1 : Json :=
  .obj [("library", .obj [("identifier",
    .obj [("id", .str "X"), ("version", .str "1.0.0")])]), ("body", .num 1)]

/-- Concrete document: same (id, version) as `doc1` but body 2. -/
def doc2 : Json :=
  .obj [("library", .obj [("identifier",
    .obj [("id", .str "X"), ("version", .str "1.0.0")])]), ("body", .num 2)]

/-- Concrete document with an id but no version field. -/
def docNoVersion : Json :=
  .obj [("library", .obj [("identifier", .obj [("id", .str "X")])])]

/-- Concrete document: id "A", version "1.0.0". -/
def docA : Json :=
  .obj [("library", .obj [("identifier",
    .obj [("id", .str "A"), ("version", .str "1.0.0")])])]

/-- Concrete document: id "B", version "1.0.0". -/
def docB : Json :=
  .obj [("library", .obj [("identifier",
    .obj [("id", .str "B"), ("version", .str "1.0.0")])])]

/-- A concrete nonempty published store predating a reload. -/
def oldStore : Store := [(.str "OLD", [(some (.str "0.0.1"), .obj [("name", .str "old")])])]

/-- Module state: `oldStore` published, root registered, loaded at time 0,
never checked. -/
def stOld : LoaderState := ⟨oldStore, some "libs", 0, 0⟩

/-- A root holding two fresh parseable documents. -/
def root2 : FSNode :=
  .dir 5000 [("a.json", .file 10 (.ok docA)), ("b.json", .file 10 (.ok docB))]

/-- A root holding one parseable document followed by a malformed one. -/
def root3 : FSNode :=
  .dir 5000 [("good.json", .file 10 (.ok docA)),
             ("bad.json", .file 10 (.error "SyntaxError: Unexpected token"))]

/-- Module state for the rate-limit scenario: loaded at time 100,
last check at time 0. -/
def st8 : LoaderState := ⟨oldStore, some "libs", 100, 0⟩

/-- A root whose content is older than `st8`'s load time. -/
def root8 : FSNode := .dir 50 []

/-- The version map of the C5 witness store: three well-formed versions. -/
def vmap5 : VMap :=
  [(some (.str "1.0.0"), .num 1), (some (.str "1.2.0"), .num 2),
   (some (.str "2.0.0-beta"), .num 3)]

/-- Witness store for latest-version resolution. -/
def store5 : Store := [(.str "X", vmap5)]

/-- A store holding one id whose version map mixes a well-formed version
with a malformed version string. -/
def store10 : Store :=
  [(.str "X", [(some (.str "1.0.0"), .num 1), (some (.str "abc"), .num 2)])]

/-- Setting a key makes it retrievable with exactly the written value. -/
theorem MapL.get_set_self {κ ν : Type} [DecidableEq κ] (l : List (κ × ν)) (k : κ) (v : ν) :
    MapL.get (MapL.set l k v) k = some v := by
  induction l with
  | nil => simp [MapL.set, MapL.get]
  | cons hd t ih =>
    obtain ⟨k', v'⟩ := hd
    by_cases hk : k' = k
    · simp [MapL.set, hk, MapL.get]
    · simp [MapL.set, hk, MapL.get, ih]

/-- A key listed among an association list's keys is retrievable. -/
theorem MapL.get_of_mem_keys {κ ν : Type} [DecidableEq κ] (l : List (κ × ν)) (k : κ)
    (h : k ∈ l.map Prod.fst) : ∃ v, MapL.get l k = some v := by
  induction l with
  | nil => simp at h
  | cons hd t ih =>
    obtain ⟨k', v'⟩ := hd
    by_cases hk : k' = k
    · exact ⟨v', by simp [MapL.get, hk]⟩
    · have hmem : k ∈ t.map Prod.fst := by
        simp only [List.map_cons, List.mem_cons] at h
        rcases h with h | h
        · exact absurd h.symm hk
        · exact h
      obtain ⟨v, hv⟩ := ih hmem
      exact ⟨v, by simp [MapL.get, hk, hv]⟩

/-- `Ordering.then` yields `gt` exactly when the first component is `gt` or
ties and the second is `gt`. -/
theorem thenEqGt {o1 o2 : Ordering} : o1.then o2 = .gt ↔ o1 = .gt ∨ (o1 = .eq ∧ o2 = .gt) := by
  cases o1 <;> simp [Ordering.then]

/-- `Ordering.then` yields `lt` exactly when the first component is `lt` or
ties and the second is `lt`. -/
theorem thenEqLt {o1 o2 : Ordering} : o1.then o2 = .lt ↔ o1 = .lt ∨ (o1 = .eq ∧ o2 = .lt) := by
  cases o1 <;> simp [Ordering.then]

/-- `Ordering.then` ties exactly when both components tie. -/
theorem thenEqEq {o1 o2 : Ordering} : o1.then o2 = .eq ↔ o1 = .eq ∧ o2 = .eq := by
  cases o1 <;> simp [Ordering.then]

/-- `swap` distributes over `then`. -/
theorem thenSwap {o1 o2 : Ordering} : (o1.then o2).swap = o1.swap.then o2.swap := by
  cases o1 <;> rfl

/-- A lawful comparator never ranks an element above itself. -/
theorem LawfulCmp.gt_irrefl {α : Type} {C : α → α → Ordering} (h : LawfulCmp C) (a : α) :
    C a a ≠ .gt := by
  simp [h.refl a]

/-- `gt`-transitivity, derived from `lt`-transitivity and `swap`. -/
theorem LawfulCmp.gtTrans {α : Type} {C : α → α → Ordering} (h : LawfulCmp C) {a b c : α}
    (h1 : C a b = .gt) (h2 : C b c = .gt) : C a c = .gt := by
  have hba : C b a = .lt := by rw [← h.swapEq a b, h1]; rfl
  have hcb : C c b = .lt := by rw [← h.swapEq b c, h2]; rfl
  have hca : C c a = .lt := h.lt_trans hcb hba
  rw [← h.swapEq c a, hca]; rfl

/-- Transitivity of "not above". -/
theorem LawfulCmp.leTrans {α : Type} {C : α → α → Ordering} (h : LawfulCmp C) {a b c : α}
    (h1 : C a b ≠ .gt) (h2 : C b c ≠ .gt) : C a c ≠ .gt := by
  cases hab : C a b with
  | gt => exact absurd hab h1
  | eq => rw [h.eq_substL c hab]; exact h2
  | lt =>
    cases hbc : C b c with
    | gt => exact absurd hbc h2
    | eq =>
      rw [← h.eq_substR a hbc]
      exact h1
    | lt => simp [h.lt_trans hab hbc]

/-- `numCmp` ties exactly on equal numbers. -/
theorem numCmp_eq_iff {a b : Nat} : numCmp a b = .eq ↔ a = b := by
  unfold numCmp
  split <;> rename_i g1
  · simp; omega
  · split <;> rename_i g2
    · simp; omega
    · simp; omega

/-- `numCmp` is `lt` exactly on `<`. -/
theorem numCmp_lt_iff {a b : Nat} : numCmp a b = .lt ↔ a < b := by
  unfold numCmp
  split <;> rename_i g1
  · simp; omega
  · split <;> rename_i g2
    · simp; omega
    · simp; omega

/-- `numCmp` is `gt` exactly on `>`. -/
theorem numCmp_gt_iff {a b : Nat} : numCmp a b = .gt ↔ b < a := by
  unfold numCmp
  split <;> rename_i g1
  · simp; omega
  · split <;> rename_i g2
    · simp; omega
    · simp; omega

/-- `numCmp` is a lawful comparator. -/
theorem numCmpLawful : LawfulCmp numCmp := by
  constructor
  · intro a; simp [numCmp]
  · intro a b c hab; rw [numCmp_eq_iff.mp hab]
  · intro a b c hab; rw [numCmp_eq_iff.mp hab]
  · intro a b
    rcases Nat.lt_trichotomy a b with h | h | h
    · rw [numCmp_lt_iff.mpr h, numCmp_gt_iff.mpr h]; rfl
    · subst h; simp [numCmp]; rfl
    · rw [numCmp_gt_iff.mpr h, numCmp_lt_iff.mpr h]; rfl
  · intro a b c h1 h2
    exact numCmp_lt_iff.mpr (Nat.lt_trans (numCmp_lt_iff.mp h1) (numCmp_lt_iff.mp h2))

/-- A comparator pulled back along a function stays lawful. -/
theorem LawfulCmp.onFun {α β : Type} {C : α → α → Ordering} (h : LawfulCmp C) (f : β → α) :
    LawfulCmp (fun x y => C (f x) (f y)) := by
  constructor
  · intro a; exact h.refl (f a)
  · intro a b c hab; exact h.eq_substL (f c) hab
  · intro a b c hab; exact h.eq_substR (f c) hab
  · intro a b; exact h.swapEq (f a) (f b)
  · intro a b c h1 h2; exact h.lt_trans h1 h2

/-- Lexicographic composition of two lawful comparators is lawful. -/
theorem LawfulCmp.compThen {α : Type} {C1 C2 : α → α → Ordering}
    (h1 : LawfulCmp C1) (h2 : LawfulCmp C2) :
    LawfulCmp (fun a b => (C1 a b).then (C2 a b)) := by
  constructor
  · intro a; rw [h1.refl, h2.refl]; rfl
  · intro a b c hab
    obtain ⟨g1, g2⟩ := thenEqEq.mp hab
    show (C1 a c).then (C2 a c) = (C1 b c).then (C2 b c)
    rw [h1.eq_substL c g1, h2.eq_substL c g2]
  · intro a b c hab
    obtain ⟨g1, g2⟩ := thenEqEq.mp hab
    show (C1 c a).then (C2 c a) = (C1 c b).then (C2 c b)
    rw [h1.eq_substR c g1, h2.eq_substR c g2]
  · intro a b
    show ((C1 a b).then (C2 a b)).swap = (C1 b a).then (C2 b a)
    rw [thenSwap, h1.swapEq, h2.swapEq]
  · intro a b c hl1 hl2
    show (C1 a c).then (C2 a c) = .lt
    rcases thenEqLt.mp hl1 with g1 | ⟨g1, g1'⟩ <;> rcases thenEqLt.mp hl2 with g2 | ⟨g2, g2'⟩
    · exact thenEqLt.mpr (Or.inl (h1.lt_trans g1 g2))
    · refine thenEqLt.mpr (Or.inl ?_)
      rw [← h1.eq_substR a g2]; exact g1
    · refine thenEqLt.mpr (Or.inl ?_)
      rw [h1.eq_substL c g1]; exact g2
    · refine thenEqLt.mpr (Or.inr ⟨?_, h2.lt_trans g1' g2'⟩)
      rw [h1.eq_substL c g1]; exact g2

/-- Pointwise lexicographic list comparison over a lawful comparator is
lawful. -/
theorem listLexLawful {α : Type} {C : α → α → Ordering} (hC : LawfulCmp C) :
    LawfulCmp (listLexCmp C) := by
  constructor
  · intro a
    induction a with
    | nil => rfl
    | cons x xs ih =>
      show (C x x).then (listLexCmp C xs xs) = .eq
      rw [hC.refl, ih]; rfl
  · intro a b c hab
    induction a generalizing b c with
    | nil =>
      cases b with
      | nil => rfl
      | cons y ys => simp [listLexCmp] at hab
    | cons x xs ih =>
      cases b with
      | nil => simp [listLexCmp] at hab
      | cons y ys =>
        have hab' : (C x y).then (listLexCmp C xs ys) = .eq := hab
        obtain ⟨g1, g2⟩ := thenEqEq.mp hab'
        cases c with
        | nil => rfl
        | cons z zs =>
          show (C x z).then (listLexCmp C xs zs) = (C y z).then (listLexCmp C ys zs)
          rw [hC.eq_substL z g1, ih zs g2]
  · intro a b c hab
    induction a generalizing b c with
    | nil =>
      cases b with
      | nil => rfl
      | cons y ys => simp [listLexCmp] at hab
    | cons x xs ih =>
      cases b with
      | nil => simp [listLexCmp] at hab
      | cons y ys =>
        have hab' : (C x y).then (listLexCmp C xs ys) = .eq := hab
        obtain ⟨g1, g2⟩ := thenEqEq.mp hab'
        cases c with
        | nil => rfl
        | cons z zs =>
          show (C z x).then (listLexCmp C zs xs) = (C z y).then (listLexCmp C zs ys)
          rw [hC.eq_substR z g1, ih zs g2]
  · intro a
    induction a with
    | nil => intro b; cases b <;> rfl
    | cons x xs ih =>
      intro b
      cases b with
      | nil => rfl
      | cons y ys =>
        show ((C x y).then (listLexCmp C xs ys)).swap = (C y x).then (listLexCmp C ys xs)
        rw [thenSwap, hC.swapEq, ih]
  · intro a b c h1 h2
    induction a generalizing b c with
    | nil =>
      cases b with
      | nil => simp [listLexCmp] at h1
      | cons y ys =>
        cases c with
        | nil => simp [listLexCmp] at h2
        | cons z zs => rfl
    | cons x xs ih =>
      cases b with
      | nil => simp [listLexCmp] at h1
      | cons y ys =>
        cases c with
        | nil => simp [listLexCmp] at h2
        | cons z zs =>
          have h1' : (C x y).then (listLexCmp C xs ys) = .lt := h1
          have h2' : (C y z).then (listLexCmp C ys zs) = .lt := h2
          show (C x z).then (listLexCmp C xs zs) = .lt
          rcases thenEqLt.mp h1' with g1 | ⟨g1, g1'⟩ <;> rcases thenEqLt.mp h2' with g2 | ⟨g2, g2'⟩
          · exact thenEqLt.mpr (Or.inl (hC.lt_trans g1 g2))
          · refine thenEqLt.mpr (Or.inl ?_)
            rw [← hC.eq_substR x g2]; exact g1
          · refine thenEqLt.mpr (Or.inl ?_)
            rw [hC.eq_substL z g1]; exact g2
          · refine thenEqLt.mpr (Or.inr ⟨?_, ih g1' g2'⟩)
            rw [hC.eq_substL z g1]; exact g2

/-- The character comparator is lawful. -/
theorem charCmpLawful : LawfulCmp charCmp :=
  numCmpLawful.onFun Char.toNat

/-- The pre-release identifier comparator is lawful. -/
theorem preIdLawful : LawfulCmp PreId.cmp := by
  have hl := listLexLawful charCmpLawful
  constructor
  · intro a
    cases a with
    | num n => exact numCmpLawful.refl n
    | alpha s => exact hl.refl s
  · intro a b c hab
    cases a with
    | num m =>
      cases b with
      | num n =>
        have : m = n := numCmp_eq_iff.mp hab
        subst this; rfl
      | alpha t => simp [PreId.cmp] at hab
    | alpha s =>
      cases b with
      | num n => simp [PreId.cmp] at hab
      | alpha t =>
        have h2 : listLexCmp charCmp s t = .eq := hab
        cases c with
        | num n => rfl
        | alpha u => exact hl.eq_substL u h2
  · intro a b c hab
    cases a with
    | num m =>
      cases b with
      | num n =>
        have : m = n := numCmp_eq_iff.mp hab
        subst this; rfl
      | alpha t => simp [PreId.cmp] at hab
    | alpha s =>
      cases b with
      | num n => simp [PreId.cmp] at hab
      | alpha t =>
        have h2 : listLexCmp charCmp s t = .eq := hab
        cases c with
        | num n => rfl
        | alpha u => exact hl.eq_substR u h2
  · intro a b
    cases a with
    | num m =>
      cases b with
      | num n => exact numCmpLawful.swapEq m n
      | alpha t => rfl
    | alpha s =>
      cases b with
      | num n => rfl
      | alpha t => exact hl.swapEq s t
  · intro a b c h1 h2
    cases a with
    | num m =>
      cases b with
      | num n =>
        cases c with
        | num p => exact numCmpLawful.lt_trans h1 h2
        | alpha u => rfl
      | alpha t =>
        cases c with
        | num p => simp [PreId.cmp] at h2
        | alpha u => rfl
    | alpha s =>
      cases b with
      | num n => simp [PreId.cmp] at h1
      | alpha t =>
        cases c with
        | num p => simp [PreId.cmp] at h2
        | alpha u => exact hl.lt_trans h1 h2

/-- The pre-release list comparator (with its empty-list-on-top special case)
is lawful. -/
theorem preCmpLawful : LawfulCmp preCmp := by
  have hl := listLexLawful preIdLawful
  constructor
  · intro a
    cases a with
    | nil => rfl
    | cons x xs => exact hl.refl (x :: xs)
  · intro a b c hab
    cases a with
    | nil =>
      cases b with
      | nil => rfl
      | cons y ys => simp [preCmp] at hab
    | cons x xs =>
      cases b with
      | nil => simp [preCmp] at hab
      | cons y ys =>
        have h2 : listLexCmp PreId.cmp (x :: xs) (y :: ys) = .eq := hab
        cases c with
        | nil => rfl
        | cons z zs => exact hl.eq_substL (z :: zs) h2
  · intro a b c hab
    cases a with
    | nil =>
      cases b with
      | nil => rfl
      | cons y ys => simp [preCmp] at hab
    | cons x xs =>
      cases b with
      | nil => simp [preCmp] at hab
      | cons y ys =>
        have h2 : listLexCmp PreId.cmp (x :: xs) (y :: ys) = .eq := hab
        cases c with
        | nil => rfl
        | cons z zs => exact hl.eq_substR (z :: zs) h2
  · intro a b
    cases a with
    | nil =>
      cases b with
      | nil => rfl
      | cons y ys => rfl
    | cons x xs =>
      cases b with
      | nil => rfl
      | cons y ys => exact hl.swapEq (x :: xs) (y :: ys)
  · intro a b c h1 h2
    cases a with
    | nil =>
      cases b with
      | nil => simp [preCmp] at h1
      | cons y ys => simp [preCmp] at h1
    | cons x xs =>
      cases b with
      | nil =>
        cases c with
        | nil => simp [preCmp] at h2
        | cons z zs => simp [preCmp] at h2
      | cons y ys =>
        cases c with
        | nil => rfl
        | cons z zs =>
          have g1 : listLexCmp PreId.cmp (x :: xs) (y :: ys) = .lt := h1
          have g2 : listLexCmp PreId.cmp (y :: ys) (z :: zs) = .lt := h2
          exact hl.lt_trans g1 g2

/-- Semver precedence is a lawful comparator: the key fact behind
`resolveLatest` computing a maximum. -/
theorem semvCmpLawful : LawfulCmp SemV.cmp := by
  have h1 := numCmpLawful.onFun SemV.major
  have h2 := numCmpLawful.onFun SemV.minor
  have h3 := numCmpLawful.onFun SemV.patch
  have h4 := preCmpLawful.onFun SemV.pre
  exact h1.compThen (h2.compThen (h3.compThen h4))

/-- A key with a parsed semver carries a version string that parses to it. -/
theorem keySemV_shape (k : VKey) (x : SemV) (h : keySemV k = some x) :
    ∃ s, versionString k = some s ∧ parseSemVer s = some x := by
  unfold keySemV at h
  cases hv : versionString k with
  | none => rw [hv] at h; simp at h
  | some s => rw [hv] at h; exact ⟨s, rfl, h⟩

/-- On two well-formed version keys, `semver.gt` succeeds and answers the
precedence comparison of the parsed versions. -/
theorem semverGtK_valid {a b : VKey} {x y : SemV}
    (ha : keySemV a = some x) (hb : keySemV b = some y) :
    semverGtK a b = .ok (decide (SemV.cmp x y = .gt)) := by
  obtain ⟨sa, hva, hpa⟩ := keySemV_shape a x ha
  obtain ⟨sb, hvb, hpb⟩ := keySemV_shape b y hb
  unfold semverGtK semverGtE
  simp only [hva, hvb, hpa, hpb]

/-- Invariant of the `semver.gt` loop: starting from a well-formed candidate
and scanning well-formed keys, it returns a stored key that no scanned key
(nor the starting candidate) strictly exceeds. -/
theorem findLatest_some_spec :
    ∀ (ks : List VKey) (l : VKey) (x : SemV), keySemV l = some x →
    (∀ k ∈ ks, (keySemV k).isSome) →
    ∃ (m : VKey) (y : SemV), findLatest (some l) ks = .ok (some m) ∧ keySemV m = some y ∧
      (m = l ∨ m ∈ ks) ∧ SemV.cmp x y ≠ .gt ∧
      (∀ k ∈ ks, ∀ z, keySemV k = some z → SemV.cmp z y ≠ .gt) := by
  intro ks
  induction ks with
  | nil =>
    intro l x hl _
    exact ⟨l, x, rfl, hl, Or.inl rfl, semvCmpLawful.gt_irrefl x, by simp⟩
  | cons v vs ih =>
    intro l x hl hvalid
    have hv : (keySemV v).isSome := hvalid v (by simp)
    obtain ⟨w, hw⟩ : ∃ w, keySemV v = some w := by
      cases hkv : keySemV v with
      | none => rw [hkv] at hv; simp at hv
      | some w => exact ⟨w, rfl⟩
    have hvalid' : ∀ k ∈ vs, (keySemV k).isSome := fun k hk => hvalid k (by simp [hk])
    have hgtk : semverGtK v l = .ok (decide (SemV.cmp w x = .gt)) := semverGtK_valid hw hl
    have step : findLatest (some l) (v :: vs) =
        (match semverGtK v l with
         | .error e => .error e
         | .ok true => findLatest (some v) vs
         | .ok false => findLatest (some l) vs) := rfl
    by_cases hgt : SemV.cmp w x = .gt
    · obtain ⟨m, y, hfind, hky, hmem, hwy, hall⟩ := ih v w hw hvalid'
      refine ⟨m, y, ?_, hky, ?_, ?_, ?_⟩
      · rw [step, hgtk, decide_eq_true hgt]
        exact hfind
      · rcases hmem with h | h
        · exact Or.inr (by simp [h])
        · exact Or.inr (by simp [h])
      · intro hxy
        exact hwy (semvCmpLawful.gtTrans hgt hxy)
      · intro k hk z hz
        rcases List.mem_cons.mp hk with h | h
        · subst h; rw [hz] at hw; injection hw with hw; subst hw; exact hwy
        · exact hall k h z hz
    · obtain ⟨m, y, hfind, hky, hmem, hxy, hall⟩ := ih l x hl hvalid'
      refine ⟨m, y, ?_, hky, ?_, hxy, ?_⟩
      · rw [step, hgtk, decide_eq_false hgt]
        exact hfind
      · rcases hmem with h | h
        · exact Or.inl h
        · exact Or.inr (by simp [h])
      · intro k hk z hz
        rcases List.mem_cons.mp hk with h | h
        · subst h; rw [hz] at hw; injection hw with hw; subst hw
          exact semvCmpLawful.leTrans hgt hxy
        · exact hall k h z hz

/-- The full loop over a nonempty well-formed key list returns a stored key
that no key in the list strictly exceeds under semver precedence. -/
theorem findLatest_spec (k0 : VKey) (ks : List VKey)
    (hvalid : ∀ k ∈ k0 :: ks, (keySemV k).isSome) :
    ∃ m y, findLatest none (k0 :: ks) = .ok (some m) ∧ keySemV m = some y ∧
      m ∈ k0 :: ks ∧
      (∀ k ∈ k0 :: ks, ∀ z, keySemV k = some z → SemV.cmp z y ≠ .gt) := by
  have h0 := hvalid k0 (by simp)
  obtain ⟨x, hx⟩ : ∃ x, keySemV k0 = some x := by
    cases h : keySemV k0 with
    | none => rw [h] at h0; simp at h0
    | some x => exact ⟨x, rfl⟩
  obtain ⟨m, y, hf, hky, hmem, hxy, hall⟩ :=
    findLatest_some_spec ks k0 x hx (fun k hk => hvalid k (by simp [hk]))
  refine ⟨m, y, hf, hky, ?_, ?_⟩
  · rcases hmem with h | h
    · simp [h]
    · simp [h]
  · intro k hk z hz
    rcases List.mem_cons.mp hk with h | h
    · subst h; rw [hz] at hx; injection hx with hx; subst hx; exact hxy
    · exact hall k h z hz

/-- Every store observed in the `applyDocs` trace is the store produced by
applying some prefix of the document list. -/
theorem applyDocsTrace_take :
    ∀ (docs : List (Except String Json)) (repo s : Store),
      s ∈ applyDocsTrace repo docs → ∃ n, s = (applyDocs repo (docs.take n)).1 := by
  intro docs
  induction docs with
  | nil =>
    intro repo s h
    simp only [applyDocsTrace, List.mem_singleton] at h
    exact ⟨0, by simp [applyDocs, h]⟩
  | cons d rest ih =>
    intro repo s h
    cases d with
    | error e =>
      simp only [applyDocsTrace, List.mem_singleton] at h
      exact ⟨0, by simp [applyDocs, h]⟩
    | ok j =>
      simp only [applyDocsTrace, List.mem_cons] at h
      rcases h with h | h
      · exact ⟨0, by simp [applyDocs, h]⟩
      · obtain ⟨n, hn⟩ := ih (Libraries.addLibrary repo j).1 s h
        refine ⟨n + 1, ?_⟩
        rw [List.take_succ_cons]
        exact hn

/-- `load` never touches `lastCheckTime`. -/
theorem load_lastCheckTime (root : Option FSNode) (p : String) (now : Int) (st : LoaderState) :
    (load root p now st).state.lastCheckTime = st.lastCheckTime := by
  cases root with
  | none => rfl
  | some node =>
    cases node with
    | file t c => rfl
    | dir t es => rfl

/-- Reloading through `load` on the registered path keeps it registered. -/
theorem load_librariesPath_same (root : Option FSNode) (p : String) (now : Int)
    (st : LoaderState) (h : st.librariesPath = some p) :
    (load root p now st).state.librariesPath = some p := by
  cases root with
  | none => exact h
  | some node =>
    cases node with
    | file t c => exact h
    | dir t es => rfl

/-- With no registered root path, or within the check interval, the check is
an identity on the state, logs nothing, raises nothing and does not scan. -/
theorem check_noop (st : LoaderState) (now : Int) (root : Option FSNode)
    (h : st.librariesPath = none ∨ now - st.lastCheckTime < CHECK_INTERVAL_MS) :
    checkAndReloadIfNeeded st now root = ⟨st, [], .ok (), false⟩ := by
  obtain ⟨repo, lp, llt, lct⟩ := st
  cases lp with
  | none => rfl
  | some p =>
    rcases h with h | h
    · exact absurd h (by simp)
    · simp only [checkAndReloadIfNeeded]
      rw [if_pos h]

/-- A call that reaches the filesystem scan records `now` as the new
`lastCheckTime` and keeps the registered root path. -/
theorem check_scanned_state (st : LoaderState) (now : Int) (root : Option FSNode)
    (h : (checkAndReloadIfNeeded st now root).scanned = true) :
    (checkAndReloadIfNeeded st now root).state.lastCheckTime = now ∧
    (checkAndReloadIfNeeded st now root).state.librariesPath = st.librariesPath := by
  obtain ⟨repo, lp, llt, lct⟩ := st
  cases lp with
  | none => simp [checkAndReloadIfNeeded] at h
  | some p =>
    simp only [checkAndReloadIfNeeded] at h ⊢
    by_cases hlt : now - lct < CHECK_INTERVAL_MS
    · rw [if_pos hlt] at h; simp at h
    · rw [if_neg hlt] at h ⊢
      split
      · split
        · refine ⟨?_, ?_⟩
          · rw [load_lastCheckTime]
          · rw [load_librariesPath_same]
            rfl
        · refine ⟨?_, ?_⟩
          · rw [load_lastCheckTime]
          · rw [load_librariesPath_same]
            rfl
      · exact ⟨rfl, rfl⟩


/-- Symbolic evaluation of `addLibrary` when the guard passes: the document is
unconditionally written at its (id, version) key, and a warning is emitted
exactly when that key already held different content. -/
theorem addLibrary_eval (store : Store) (j i : Json) (hg : addGuard j = true)
    (hi : libraryId j = some i) :
    Libraries.addLibrary store j =
      (MapL.set store i (MapL.set ((MapL.get store i).getD []) (libraryVersion j) j),
       match MapL.get store i with
       | none => []
       | some m =>
         match MapL.get m (libraryVersion j) with
         | none => []
         | some loadedJSON => if loadedJSON ≠ j then [dupWarning] else []) := by
  unfold Libraries.addLibrary
  rw [hg, hi]
  simp

/-- C1 (amended): for every store state and documents D1, D2 sharing the same
(id, version) key but with differing content, calling add(D1) then add(D2)
leaves exactly D2 stored under that key — the LAST write for a given key wins,
because line 32 stores the incoming document unconditionally — while a
diagnostic warning is emitted and no error is raised to the caller. -/
theorem c1_last_write_wins (store : Store) (d1 d2 i : Json) (v : VKey)
    (hg1 : addGuard d1 = true) (hg2 : addGuard d2 = true)
    (hi1 : libraryId d1 = some i) (hi2 : libraryId d2 = some i)
    (hv1 : libraryVersion d1 = v) (hv2 : libraryVersion d2 = v)
    (hne : d1 ≠ d2) :
    (MapL.get (Libraries.addLibrary store d1).1 i).bind (fun m => MapL.get m v) = some d1 ∧
    (MapL.get (Libraries.addLibrary (Libraries.addLibrary store d1).1 d2).1 i).bind
      (fun m => MapL.get m v) = some d2 ∧
    (Libraries.addLibrary (Libraries.addLibrary store d1).1 d2).2 = [dupWarning] := by
  have e1 := addLibrary_eval store d1 i hg1 hi1
  rw [hv1] at e1
  have h1 : (Libraries.addLibrary store d1).1 =
      MapL.set store i (MapL.set ((MapL.get store i).getD []) v d1) := by rw [e1]
  have hm : MapL.get (MapL.set store i (MapL.set ((MapL.get store i).getD []) v d1)) i =
      some (MapL.set ((MapL.get store i).getD []) v d1) := MapL.get_set_self _ _ _
  have hm1 : MapL.get (MapL.set ((MapL.get store i).getD []) v d1) v = some d1 :=
    MapL.get_set_self _ _ _
  have e2 := addLibrary_eval (Libraries.addLibrary store d1).1 d2 i hg2 hi2
  rw [hv2, h1] at e2
  simp only [hm, hm1, Option.getD_some] at e2
  rw [if_pos hne] at e2
  refine ⟨?_, ?_, ?_⟩
  · rw [h1, hm]
    simpa using hm1
  · rw [h1]
    simp only [e2]
    rw [MapL.get_set_self]
    simpa using MapL.get_set_self (MapL.set ((MapL.get store i).getD []) v d1) v d2
  · rw [h1]
    simp only [e2]

/-- C1 counterexample: adding `doc1` then `doc2` — same (id, version), bodies
1 and 2 — leaves `doc2` under the key, not the originally stored `doc1`
required by the claim's "first write always wins". -/
theorem c1_counterexample :
    (MapL.get (Libraries.addLibrary (Libraries.addLibrary [] doc1).1 doc2).1 (.str "X")).bind
      (fun m => MapL.get m (some (.str "1.0.0"))) = some doc2 ∧
    doc1 ≠ doc2 ∧ some doc2 ≠ some doc1 := by
  decide

/-- C1 witness: the amended theorem applied to the empty store and the two
concrete conflicting documents. -/
theorem c1_witness :
    (MapL.get (Libraries.addLibrary [] doc1).1 (.str "X")).bind
      (fun m => MapL.get m (some (.str "1.0.0"))) = some doc1 ∧
    (MapL.get (Libraries.addLibrary (Libraries.addLibrary [] doc1).1 doc2).1 (.str "X")).bind
      (fun m => MapL.get m (some (.str "1.0.0"))) = some doc2 ∧
    (Libraries.addLibrary (Libraries.addLibrary [] doc1).1 doc2).2 = [dupWarning] :=
  c1_last_write_wins [] doc1 doc2 (.str "X") (some (.str "1.0.0"))
    (by decide) (by decide) (by decide) (by decide) (by decide) (by decide) (by decide)

/-- C9 (amended): a parsed document whose `library.identifier.id` chain is
missing (or falsy) is silently ignored by `add` — the store is unchanged, no
warning, no error.  A document that has an id but LACKS `identifier.version`
is, however, NOT ignored: it is indexed under the `undefined` version key. -/
theorem c9_missing_id_ignored :
    (∀ (store : Store) (j : Json), jtruthy (libraryId j) = false →
       Libraries.addLibrary store j = (store, [])) ∧
    (Libraries.addLibrary [] docNoVersion).1 = [(.str "X", [(none, docNoVersion)])] := by
  constructor
  · intro store j h
    have hg : addGuard j = false := by
      unfold addGuard
      rw [h]
      simp
    unfold Libraries.addLibrary
    rw [hg]
    simp
  · decide

/-- C9 counterexample: `docNoVersion` lacks `identifier.version`, yet `add`
does not leave the store unchanged — it indexes the document under the
`undefined` version key. -/
theorem c9_counterexample :
    (Libraries.addLibrary [] docNoVersion).1 ≠ ([] : Store) ∧
    (MapL.get (Libraries.addLibrary [] docNoVersion).1 (.str "X")).bind
      (fun m => MapL.get m none) = some docNoVersion := by
  decide

/-- C9 witness: the amended theorem applied to a document with no id at all
and to the concrete version-less document. -/
theorem c9_witness :
    Libraries.addLibrary [] (.obj []) = ([], []) ∧
    (Libraries.addLibrary [] docNoVersion).1 = [(.str "X", [(none, docNoVersion)])] :=
  ⟨c9_missing_id_ignored.1 [] (.obj []) (by decide), c9_missing_id_ignored.2⟩

/-- C4: for every store and id, `resolve` with the version omitted
(`undefined`) or `null` returns exactly `resolveLatest(id)`. -/
theorem c4_resolve_nullish (store : Store) (id : Json) (v : VKey)
    (h : v = none ∨ v = some .null) :
    Libraries.resolve store id v = Libraries.resolveLatest store id := by
  rcases h with h | h <;> subst h <;> rfl

/-- C4 witness: the theorem at a concrete store for both nullish versions. -/
theorem c4_witness :
    Libraries.resolve store5 (.str "X") none = Libraries.resolveLatest store5 (.str "X") ∧
    Libraries.resolve store5 (.str "X") (some .null) =
      Libraries.resolveLatest store5 (.str "X") :=
  ⟨c4_resolve_nullish store5 (.str "X") none (Or.inl rfl),
   c4_resolve_nullish store5 (.str "X") (some .null) (Or.inr rfl)⟩

/-- C6: a resolution miss — `resolve` on an unknown (id, version) key with an
explicit version, or `resolveLatest` on an id that is unknown or has zero
stored versions — logs the miss and returns an absent result (`ok none`, JS
`undefined`) instead of throwing.  Both queries are pure reads: the store is
not part of their output, so it is left untouched. -/
theorem c6_resolution_miss :
    (∀ (store : Store) (id : Json) (v : VKey), jsNullish v = false →
       (MapL.get store id).bind (fun m => MapL.get m v) = none →
       Libraries.resolve store id v = (.ok none, [resolveFailMsg])) ∧
    (∀ (store : Store) (id : Json),
       MapL.get store id = none ∨ MapL.get store id = some [] →
       Libraries.resolveLatest store id = (.ok none, [resolveLatestFailMsg])) := by
  constructor
  · intro store id v hv hmiss
    unfold Libraries.resolve
    rw [hv, if_neg (by decide : ¬ false = true)]
    unfold Libraries.resolveExact
    cases hg : MapL.get store id with
    | none => rfl
    | some m =>
      rw [hg] at hmiss
      simp only [Option.bind] at hmiss
      simp only [hmiss]
  · intro store id h
    unfold Libraries.resolveLatest
    rcases h with h | h
    · rw [h]
    · rw [h]
      rfl

/-- C6 witness: a miss on an unknown version of a known id, and a miss on an
unknown id for latest-resolution. -/
theorem c6_witness :
    Libraries.resolve store5 (.str "X") (some (.str "9.9.9")) =
      (.ok none, [resolveFailMsg]) ∧
    Libraries.resolveLatest store5 (.str "Y") = (.ok none, [resolveLatestFailMsg]) :=
  ⟨c6_resolution_miss.1 store5 (.str "X") (some (.str "9.9.9")) (by decide) (by decide),
   c6_resolution_miss.2 store5 (.str "Y") (Or.inl (by decide))⟩

/-- C7: loading a path that does not exist (`none`) or is not a directory (a
file node) logs the failure, returns without raising an error, and leaves the
module state — store contents included — completely unchanged. -/
theorem c7_load_invalid_path (root : Option FSNode) (p : String) (now : Int)
    (st : LoaderState) (h : root = none ∨ ∃ t c, root = some (.file t c)) :
    load root p now st = ⟨st, [loadFailMsg p], .ok ()⟩ := by
  rcases h with h | ⟨t, c, h⟩ <;> subst h <;> rfl

/-- C7 witness: loading a missing path and loading a plain file. -/
theorem c7_witness :
    load none "missing" 7 stOld = ⟨stOld, [loadFailMsg "missing"], .ok ()⟩ ∧
    load (some (.file 3 (.ok .null))) "plain.json" 7 stOld =
      ⟨stOld, [loadFailMsg "plain.json"], .ok ()⟩ :=
  ⟨c7_load_invalid_path none "missing" 7 stOld (Or.inl rfl),
   c7_load_invalid_path (some (.file 3 (.ok .null))) "plain.json" 7 stOld
     (Or.inr ⟨3, .ok .null, rfl⟩)⟩

/-- C5: for every id with a nonempty version map whose stored version keys
are all well-formed semantic-version strings, `resolveLatest` returns exactly
the stored document at a version key that no stored version string exceeds
under semver precedence; and that precedence is the semantic-versioning one —
a pre-release of a higher core version outranks a release of a lower core
version ("2.0.0-beta" above "1.2.0"), while within one core version the
release outranks its pre-release ("1.0.0" above "1.0.0-alpha"). -/
theorem c5_resolveLatest_semver_max :
    (∀ (store : Store) (id : Json) (vmap : VMap),
       MapL.get store id = some vmap → vmap ≠ [] →
       (∀ k ∈ vmap.map Prod.fst, (keySemV k).isSome) →
       ∃ (v : VKey) (sv : SemV) (doc : Json),
         v ∈ vmap.map Prod.fst ∧ keySemV v = some sv ∧
         MapL.get vmap v = some doc ∧
         Libraries.resolveLatest store id = (.ok (some doc), []) ∧
         (∀ w ∈ vmap.map Prod.fst, ∀ z, keySemV w = some z → SemV.cmp z sv ≠ .gt)) ∧
    semverGtE "2.0.0-beta" "1.2.0" = .ok true ∧
    semverGtE "1.0.0" "1.0.0-alpha" = .ok true := by
  refine ⟨?_, by decide, by decide⟩
  intro store id vmap hget hne hvalid
  obtain ⟨e0, rest, hvm⟩ : ∃ e0 rest, vmap = e0 :: rest := by
    cases vmap with
    | nil => exact absurd rfl hne
    | cons e0 rest => exact ⟨e0, rest, rfl⟩
  subst hvm
  have hkeys : (e0 :: rest).map Prod.fst = e0.1 :: rest.map Prod.fst := rfl
  obtain ⟨m, y, hf, hky, hmem, hmax⟩ :=
    findLatest_spec e0.1 (rest.map Prod.fst) (by rw [← hkeys]; exact hvalid)
  have hmem' : m ∈ (e0 :: rest).map Prod.fst := by rw [hkeys]; exact hmem
  obtain ⟨doc, hdoc⟩ := MapL.get_of_mem_keys (e0 :: rest) m hmem'
  obtain ⟨s, hvs, hps⟩ := keySemV_shape m y hky
  have hmnn : jsNullish m = false := by
    cases m with
    | none => simp [versionString] at hvs
    | some j =>
      cases j with
      | str s2 => rfl
      | null => simp [versionString] at hvs
      | bool b => simp [versionString] at hvs
      | num n => simp [versionString] at hvs
      | arr l => simp [versionString] at hvs
      | obj f => simp [versionString] at hvs
  refine ⟨m, y, doc, hmem', hky, hdoc, ?_, by rw [hkeys]; exact hmax⟩
  have hres : Libraries.resolveLatest store id =
      (match findLatest none ((e0 :: rest).map Prod.fst) with
       | .error e => (.error e, [])
       | .ok none => (.error stackOverflowMsg, [])
       | .ok (some latest) =>
         if jsNullish latest then (.error stackOverflowMsg, [])
         else Libraries.resolveExact store id latest) := by
    unfold Libraries.resolveLatest
    simp only [hget]
    rw [if_pos (by simp)]
  rw [hres, hkeys, hf]
  simp only [hmnn, Bool.false_eq_true, if_false]
  unfold Libraries.resolveExact
  simp only [hget, hdoc]

/-- C5 witness: the theorem applied to the concrete store holding versions
1.0.0, 1.2.0 and 2.0.0-beta for id "X". -/
theorem c5_witness :
    (∃ (v : VKey) (sv : SemV) (doc : Json),
       v ∈ vmap5.map Prod.fst ∧ keySemV v = some sv ∧
       MapL.get vmap5 v = some doc ∧
       Libraries.resolveLatest store5 (.str "X") = (.ok (some doc), []) ∧
       (∀ w ∈ vmap5.map Prod.fst, ∀ z, keySemV w = some z → SemV.cmp z sv ≠ .gt)) ∧
    semverGtE "2.0.0-beta" "1.2.0" = .ok true ∧
    semverGtE "1.0.0" "1.0.0-alpha" = .ok true :=
  ⟨c5_resolveLatest_semver_max.1 store5 (.str "X") vmap5 (by decide) (by decide) (by decide),
   c5_resolveLatest_semver_max.2.1, c5_resolveLatest_semver_max.2.2⟩

/-- C10: `resolveLatest` is total only when every stored version string for
the id parses as a semantic version: on the concrete store whose id "X" holds
keys "1.0.0" and "abc", the string "abc" is not valid semver syntax and the
`semver.gt` comparison inside the loop throws `Invalid Version: abc` — the
call (and `resolve` with a nullish version, which delegates to it) ends in an
exception instead of a document or an absent result. -/
theorem c10_malformed_version_throws :
    parseSemVer "abc" = none ∧
    Libraries.resolveLatest store10 (.str "X") = (.error "Invalid Version: abc", []) ∧
    Libraries.resolve store10 (.str "X") none = (.error "Invalid Version: abc", []) := by
  decide


/-- C2 (amended): a reload never mutates the previously published store, but
it does not build the replacement before publishing it: `reset()` swaps in a
fresh empty store first and `load` then populates that already-published
store in place.  Hence every store value observable through `get()` during a
`checkAndReloadIfNeeded` call is either the old store or the population of a
fresh store with some prefix of the tree's documents — which includes the
empty store and partial stores, not only the complete new one.  (In the
single-threaded synchronous runtime no reader can actually interleave with
the reload.) -/
theorem c2_reload_trace (st : LoaderState) (now : Int) (root : Option FSNode) (s : Store)
    (h : s ∈ checkAndReloadTrace st now root) :
    s = st.repo ∨ ∃ n, s = (applyDocs [] ((rootDocs root).take n)).1 := by
  obtain ⟨repo, lp, llt, lct⟩ := st
  cases lp with
  | none =>
    simp only [checkAndReloadTrace, List.mem_singleton] at h
    exact Or.inl h
  | some p =>
    simp only [checkAndReloadTrace] at h
    by_cases hlt : now - lct < CHECK_INTERVAL_MS
    · rw [if_pos hlt] at h
      simp only [List.mem_singleton] at h
      exact Or.inl h
    · rw [if_neg hlt] at h
      split at h
      · cases root with
        | none =>
          simp only [List.mem_cons, List.not_mem_nil, or_false] at h
          rcases h with h | h
          · exact Or.inl h
          · exact Or.inr ⟨0, by rw [h]; rfl⟩
        | some node =>
          cases node with
          | file t c =>
            simp only [List.mem_cons, List.not_mem_nil, or_false] at h
            rcases h with h | h
            · exact Or.inl h
            · exact Or.inr ⟨0, by rw [h]; rfl⟩
          | dir t es =>
            rcases List.mem_cons.mp h with h | h
            · exact Or.inl h
            · obtain ⟨n, hn⟩ := applyDocsTrace_take (FSNode.listDocs es) [] s h
              exact Or.inr ⟨n, hn⟩
      · simp only [List.mem_singleton] at h
        exact Or.inl h

/-- C2 counterexample: with the nonempty `oldStore` published and a stale
root of two fresh documents, the fresh EMPTY store is observable through
`get()` during the reload, and it equals neither the complete old store nor
the complete new one — refuting "readers observe either the fully-old store
or the fully-new store". -/
theorem c2_counterexample :
    ([] : Store) ∈ checkAndReloadTrace stOld 2000 (some root2) ∧
    ([] : Store) ≠ stOld.repo ∧
    ([] : Store) ≠ (checkAndReloadIfNeeded stOld 2000 (some root2)).state.repo := by
  decide

/-- C2 witness: the amended theorem applied to the concrete reload, locating
the observed empty store as the load of the empty document prefix. -/
theorem c2_witness :
    ([] : Store) = stOld.repo ∨
    ∃ n, ([] : Store) = (applyDocs [] ((rootDocs (some root2)).take n)).1 :=
  c2_reload_trace stOld 2000 (some root2) [] (by decide)

/-- C3 (amended): when a reload triggered by `checkAndReloadIfNeeded` hits a
file that fails to parse, the parse exception propagates to the caller, and
the published store at that point is the PARTIALLY rebuilt new store (the
documents added before the failure) — not the previously published store,
which `reset()` had already discarded before loading began. -/
theorem c3_failed_reload_partial (st : LoaderState) (now : Int) (root : FSNode)
    (p : String) (e : String)
    (hp : st.librariesPath = some p)
    (hlt : ¬ now - st.lastCheckTime < CHECK_INTERVAL_MS)
    (hstale : st.lastLoadTime < getLatestModTime root)
    (herr : (applyDocs [] (rootDocs (some root))).2.2 = .error e) :
    (checkAndReloadIfNeeded st now (some root)).exc = .error e ∧
    (checkAndReloadIfNeeded st now (some root)).state.repo =
      (applyDocs [] (rootDocs (some root))).1 := by
  obtain ⟨repo, lp, llt, lct⟩ := st
  simp only at hp hlt hstale
  subst hp
  cases root with
  | file t c => simp [rootDocs, applyDocs] at herr
  | dir t es =>
    have hdocs : rootDocs (some (.dir t es)) = FSNode.listDocs es := rfl
    rw [hdocs] at herr ⊢
    simp only [checkAndReloadIfNeeded]
    rw [if_neg hlt, if_pos hstale]
    have hload : load (some (.dir t es)) p now ⟨[], some p, llt, now⟩ =
        ⟨⟨(applyDocs [] (FSNode.listDocs es)).1, some p, now, now⟩,
         (applyDocs [] (FSNode.listDocs es)).2.1,
         (applyDocs [] (FSNode.listDocs es)).2.2⟩ := rfl
    rw [hload]
    simp only [herr]
    exact ⟨trivial, trivial⟩

/-- C3 counterexample: with `oldStore` published and a stale root holding one
good document followed by a malformed file, the reload throws, the old store
is no longer live, and the published store is the nonempty partial rebuild —
refuting "the previously published store remains live and unchanged". -/
theorem c3_counterexample :
    (checkAndReloadIfNeeded stOld 2000 (some root3)).exc =
      .error "SyntaxError: Unexpected token" ∧
    (checkAndReloadIfNeeded stOld 2000 (some root3)).state.repo ≠ stOld.repo ∧
    (checkAndReloadIfNeeded stOld 2000 (some root3)).state.repo ≠ ([] : Store) := by
  decide

/-- C3 witness: the amended theorem applied to the concrete failing reload. -/
theorem c3_witness :
    (checkAndReloadIfNeeded stOld 2000 (some root3)).exc =
      .error "SyntaxError: Unexpected token" ∧
    (checkAndReloadIfNeeded stOld 2000 (some root3)).state.repo =
      (applyDocs [] (rootDocs (some root3))).1 :=
  c3_failed_reload_partial stOld 2000 root3 "libs" "SyntaxError: Unexpected token"
    (by decide) (by decide) (by decide) (by decide)

/-- C8 (amended): `checkAndReloadIfNeeded` is a no-op — state unchanged, no
log, no error, and no filesystem scan — whenever no root path is registered
or less than the check interval has elapsed since the last check time; hence
for every pair of calls within one check interval AT MOST ONE performs a
filesystem scan, and when the FIRST call performs the scan the second call is
a no-op.  (When the first call was itself rate-limited, the second call may
be the one that scans — see the counterexample — so "the second call is a
no-op" does not hold unconditionally.) -/
theorem c8_rate_limit :
    (∀ (st : LoaderState) (now : Int) (root : Option FSNode),
       (st.librariesPath = none ∨ now - st.lastCheckTime < CHECK_INTERVAL_MS) →
       checkAndReloadIfNeeded st now root = ⟨st, [], .ok (), false⟩) ∧
    (∀ (st : LoaderState) (t1 t2 : Int) (r1 r2 : Option FSNode),
       t2 - t1 < CHECK_INTERVAL_MS →
       (checkAndReloadIfNeeded st t1 r1).scanned = true →
       checkAndReloadIfNeeded (checkAndReloadIfNeeded st t1 r1).state t2 r2 =
         ⟨(checkAndReloadIfNeeded st t1 r1).state, [], .ok (), false⟩) ∧
    (∀ (st : LoaderState) (t1 t2 : Int) (r1 r2 : Option FSNode),
       t2 - t1 < CHECK_INTERVAL_MS →
       ¬((checkAndReloadIfNeeded st t1 r1).scanned = true ∧
         (checkAndReloadIfNeeded (checkAndReloadIfNeeded st t1 r1).state t2 r2).scanned =
           true)) := by
  refine ⟨check_noop, ?_, ?_⟩
  · intro st t1 t2 r1 r2 hint hscan
    obtain ⟨hlc, _⟩ := check_scanned_state st t1 r1 hscan
    exact check_noop _ t2 r2 (Or.inr (by rw [hlc]; exact hint))
  · intro st t1 t2 r1 r2 hint hboth
    obtain ⟨h1, h2⟩ := hboth
    obtain ⟨hlc, _⟩ := check_scanned_state st t1 r1 h1
    have hnoop := check_noop (checkAndReloadIfNeeded st t1 r1).state t2 r2
      (Or.inr (by rw [hlc]; exact hint))
    rw [hnoop] at h2
    simp at h2

/-- C8 counterexample: with `lastCheckTime = 0`, a call at t=500 is
rate-limited (no scan) and a second call at t=1200 — only 700ms later, within
one check interval — DOES scan and update the state, refuting "the second
call is a no-op". -/
theorem c8_counterexample :
    checkAndReloadIfNeeded st8 500 (some root8) = ⟨st8, [], .ok (), false⟩ ∧
    (1200 : Int) - 500 < CHECK_INTERVAL_MS ∧
    (checkAndReloadIfNeeded st8 1200 (some root8)).scanned = true ∧
    (checkAndReloadIfNeeded st8 1200 (some root8)).state ≠ st8 := by
  decide

/-- C8 witness: the no-op part on a rate-limited call, and the pair property
on a first call that scans (t1=1500) followed by one 500ms later. -/
theorem c8_witness :
    checkAndReloadIfNeeded st8 500 (some root8) = ⟨st8, [], .ok (), false⟩ ∧
    checkAndReloadIfNeeded (checkAndReloadIfNeeded st8 1500 (some root8)).state 2000
        (some root8) =
      ⟨(checkAndReloadIfNeeded st8 1500 (some root8)).state, [], .ok (), false⟩ :=
  ⟨c8_rate_limit.1 st8 500 (some root8) (Or.inr (by decide)),
   c8_rate_limit.2.1 st8 1500 2000 (some root8) (some root8) (by decide) (by decide)⟩
